import Mathlib

/-!
# Verification of the ld.so.cache validating parser (src/ldcache.c)

This file shallow-embeds the cache-file parser of `src/ldcache.c` into Lean.
The buffer read from disk is modelled as a `List Nat` of bytes; addresses are
byte offsets from the buffer start (the C code's `buffer` pointer is offset 0).
Machine integers are modelled as `Nat` with explicit `% 2 ^ 32` at the points
where the C code truncates (the `uint32_t offset` local and the `uint32_t
limit` parameter of `validatePtr`).  A read past the end of the allocation
(undefined behaviour in C) is modelled as yielding the byte 0.
-/

set_option maxRecDepth 100000

namespace Ldcache

/-- Constant 2 ^ 32, the modulus of the C type `uint32_t`. -/
def u32Mod : Nat := 4294967296

/-- Read one byte of the buffer; out-of-allocation reads yield 0. -/
def readByte (buf : List Nat) (i : Nat) : Nat := buf.getD i 0

/-- Little-endian 16-bit read, as the x86 hardware does for `int16_t`. -/
def readU16 (buf : List Nat) (i : Nat) : Nat :=
  readByte buf i + 256 * readByte buf (i + 1)

/-- Little-endian 32-bit read, as the x86 hardware does for `uint32_t`. -/
def readU32 (buf : List Nat) (i : Nat) : Nat :=
  readByte buf i + 256 * readByte buf (i + 1) + 65536 * readByte buf (i + 2)
    + 16777216 * readByte buf (i + 3)

/-- Little-endian 64-bit read, as the x86 hardware does for `uint64_t`. -/
def readU64 (buf : List Nat) (i : Nat) : Nat :=
  readU32 buf i + 4294967296 * readU32 buf (i + 4)

/-- The `n` bytes of the buffer starting at offset `off` (for `strncmp`). -/
def slice (buf : List Nat) (off n : Nat) : List Nat := (buf.drop off).take n

/-- Bytes of `CACHEMAGIC_OLD = "ld.so-1.7.0"` (11 bytes, no terminator). -/
def magicOldBytes : List Nat := [108, 100, 46, 115, 111, 45, 49, 46, 55, 46, 48]

/-- Bytes of `CACHEMAGIC_NEW = "glibc-ld.so.cache1.1"` (20 bytes, no terminator). -/
def magicNewBytes : List Nat :=
  [103, 108, 105, 98, 99, 45, 108, 100, 46, 115, 111, 46, 99, 97, 99, 104,
   101, 49, 46, 49]

/-- Function `validatePtr` of ldcache.c lines 102-111: with `base`/`ptr` as byte
offsets, return false when `ptr + offset` is below `base` or at/after
`base + limit`, and true otherwise.  Only the end `ptr + offset` of the
candidate range is compared; the start `ptr` is never itself checked. -/
def validatePtr (base limit ptr offset : Nat) : Bool :=
  if ptr + offset < base then false
  else if base + limit ≤ ptr + offset then false
  else true

/-- Macro `ALIGN_TYPE_OFFSET(addr, type)` of ldcache.c lines 15-16, for
`type = struct header_new` whose `__alignof__` is 4: the macro expands to
`(align - 1) & (~(align - 1))` on 64-bit unsigned arithmetic.  The `addr`
argument appears in the macro's parameter list but not in its expansion. -/
def alignTypeOffset (_addr : Nat) : Nat :=
  (4 - 1) &&& (18446744073709551615 - (4 - 1))

/-- Size `sizeof(struct header_old)`: 11 magic bytes, one padding byte, and the
4-byte `nlibs` field at offset 12. -/
def sizeofHeaderOld : Nat := 16

/-- Size `sizeof(struct libentry_old)`: three 4-byte fields. -/
def sizeofEntryOld : Nat := 12

/-- Size `sizeof(struct header_new)`: 20 magic bytes and seven 4-byte fields
(`nlibs` at offset 20, `stringslen` at offset 24, `unused[5]` at 28-47). -/
def sizeofHeaderNew : Nat := 48

/-- Size `sizeof(struct libentry_new)`: `flags` at offset 0, 2 padding bytes,
`key` at 4, `value` at 8, `osversion` at 12, `hwcap` at 16, total 24. -/
def sizeofEntryNew : Nat := 24

/-- Value `filelen` truncated to the `uint32_t limit` parameter of `validatePtr`. -/
def limit32 (buf : List Nat) : Nat := buf.length % u32Mod

/-- Field `header_old->nlibs`, read at buffer offset 12. -/
def nlibsOld (buf : List Nat) : Nat := readU32 buf 12

/-- Value `offset = header_old->nlibs * sizeof(struct libentry_old)` (line 165):
the product is stored into the `uint32_t offset` local, hence `% 2 ^ 32`. -/
def oldEntriesBytes (buf : List Nat) : Nat := nlibsOld buf * sizeofEntryOld % u32Mod

/-- Cursor after the old header and the old entry array (old strtab start). -/
def oldEnd (buf : List Nat) : Nat := sizeofHeaderOld + oldEntriesBytes buf

/-- Address of `header_new`: the cursor after the old region plus the
alignment pad computed by `ALIGN_TYPE_OFFSET` (line 180). -/
def newHeaderOff (buf : List Nat) : Nat := oldEnd buf + alignTypeOffset (oldEnd buf)

/-- Field `header_new->nlibs`, read 20 bytes into the new header. -/
def nlibsNew (buf : List Nat) : Nat := readU32 buf (newHeaderOff buf + 20)

/-- Field `header_new->stringslen`, read 24 bytes into the new header. -/
def stringslen (buf : List Nat) : Nat := readU32 buf (newHeaderOff buf + 24)

/-- Value `offset = header_new->nlibs * sizeof(struct libentry_new)` (line 202),
truncated by the `uint32_t offset` local. -/
def newEntriesBytes (buf : List Nat) : Nat := nlibsNew buf * sizeofEntryNew % u32Mod

/-- Address of the `libs_new` array (right after the new header). -/
def libsNewOff (buf : List Nat) : Nat := newHeaderOff buf + sizeofHeaderNew

/-- Assignment `strtab = (char *)header_new` (line 210): the new string table is
addressed from the new header's own start. -/
def strtabOff (buf : List Nat) : Nat := newHeaderOff buf

/-- Cursor after the new entry array. -/
def curAfterEntries (buf : List Nat) : Nat := libsNewOff buf + newEntriesBytes buf

/-- Final cursor, after `bufptr += header_new->stringslen` (line 215). -/
def curEnd (buf : List Nat) : Nat := curAfterEntries buf + stringslen buf

/-- Field `libs_new[i].flags` (an `int16_t`, modelled as its 16-bit pattern). -/
def entryFlags (buf : List Nat) (i : Nat) : Nat :=
  readU16 buf (libsNewOff buf + sizeofEntryNew * i)

/-- Field `libs_new[i].key`. -/
def entryKey (buf : List Nat) (i : Nat) : Nat :=
  readU32 buf (libsNewOff buf + sizeofEntryNew * i + 4)

/-- Field `libs_new[i].value`. -/
def entryValue (buf : List Nat) (i : Nat) : Nat :=
  readU32 buf (libsNewOff buf + sizeofEntryNew * i + 8)

/-- Field `libs_new[i].osversion`. -/
def entryOsversion (buf : List Nat) (i : Nat) : Nat :=
  readU32 buf (libsNewOff buf + sizeofEntryNew * i + 12)

/-- Field `libs_new[i].hwcap`. -/
def entryHwcap (buf : List Nat) (i : Nat) : Nat :=
  readU64 buf (libsNewOff buf + sizeofEntryNew * i + 16)

/-- The null-terminated string at buffer offset `off`, as printed by
`printf("%s", &strtab[...])`: the bytes up to the first 0 byte.  Accepted
buffers end in a 0 byte, so for them the scan stays inside the buffer. -/
def extractString (buf : List Nat) (off : Nat) : List Nat :=
  (buf.drop off).takeWhile (fun b => b ≠ 0)

/-- One record printed for a new-format entry: raw flags, resolved key and
value strings, OS version and hwcap (lines 267-273). -/
structure LibEntryNew where
  flags : Nat
  key : List Nat
  value : List Nat
  osversion : Nat
  hwcap : Nat
deriving Repr, DecidableEq

/-- Step-1 bounds check (line 157): reserve `sizeof(struct header_old)`. -/
def check1 (buf : List Nat) : Bool := validatePtr 0 (limit32 buf) 0 sizeofHeaderOld

/-- Step-2 bounds check (line 166): reserve the old entry array. -/
def check2 (buf : List Nat) : Bool :=
  validatePtr 0 (limit32 buf) sizeofHeaderOld (oldEntriesBytes buf)

/-- Step-3 bounds check (line 181): reserve the alignment pad. -/
def check3 (buf : List Nat) : Bool :=
  validatePtr 0 (limit32 buf) (oldEnd buf) (alignTypeOffset (oldEnd buf))

/-- Step-4 bounds check (line 194): reserve `sizeof(struct header_new)`. -/
def check4 (buf : List Nat) : Bool :=
  validatePtr 0 (limit32 buf) (newHeaderOff buf) sizeofHeaderNew

/-- Step-5 bounds check (line 203): reserve the new entry array. -/
def check5 (buf : List Nat) : Bool :=
  validatePtr 0 (limit32 buf) (libsNewOff buf) (newEntriesBytes buf)

/-- Exact-length check (line 217): `(bufptr - buffer) != filelen` fails. -/
def checkLen (buf : List Nat) : Bool := curEnd buf == buf.length

/-- Old magic check (lines 223-225): `strncmp` over 11 bytes at offset 0. -/
def checkMagicOld (buf : List Nat) : Bool := slice buf 0 11 == magicOldBytes

/-- New magic check (lines 231-233): `strncmp` over 20 bytes at the new header. -/
def checkMagicNew (buf : List Nat) : Bool :=
  slice buf (newHeaderOff buf) 20 == magicNewBytes

/-- Final-byte check (line 243): `*(bufptr - 1)` must be 0. -/
def checkLastByte (buf : List Nat) : Bool := readByte buf (curEnd buf - 1) == 0

/-- String-offset validation loop (lines 250-261): for every entry,
`strtab + key` and `strtab + value` must be strictly below `bufptr`
(which at that point is the buffer end). -/
def checkEntryOffsets (buf : List Nat) : Bool :=
  (List.range (nlibsNew buf)).all fun i =>
    decide (strtabOff buf + entryKey buf i < curEnd buf)
      && decide (strtabOff buf + entryValue buf i < curEnd buf)

/-- The records printed on success, in file order. -/
def parsedRecords (buf : List Nat) : List LibEntryNew :=
  (List.range (nlibsNew buf)).map fun i =>
    ⟨entryFlags buf i,
     extractString buf (strtabOff buf + entryKey buf i),
     extractString buf (strtabOff buf + entryValue buf i),
     entryOsversion buf i,
     entryHwcap buf i⟩

/-- The whole parse of ldcache.c lines 150-273: each failed check is an
early `errx` exit (`none`); on success the record list is produced.  The
checks appear in the source's order; since every failure yields the same
outcome, they are combined with `&&`. -/
def ldcacheParse (buf : List Nat) : Option (List LibEntryNew) :=
  if check1 buf && check2 buf && check3 buf && check4 buf && check5 buf
      && checkLen buf && checkMagicOld buf && checkMagicNew buf
      && checkLastByte buf && checkEntryOffsets buf
  then some (parsedRecords buf) else none

/-! ### Concrete test buffers -/

/-- Little-endian bytes of a `uint16_t`. -/
def u16Bytes (n : Nat) : List Nat := [n % 256, n / 256 % 256]

/-- Little-endian bytes of a `uint32_t`. -/
def u32Bytes (n : Nat) : List Nat :=
  [n % 256, n / 256 % 256, n / 65536 % 256, n / 16777216 % 256]

/-- Little-endian bytes of a `uint64_t`. -/
def u64Bytes (n : Nat) : List Nat := u32Bytes (n % u32Mod) ++ u32Bytes (n / u32Mod)

/-- The 24 bytes of one `struct libentry_new` (2 padding bytes after `flags`). -/
def entryBytes (flags key value osv hw : Nat) : List Nat :=
  u16Bytes flags ++ [0, 0] ++ u32Bytes key ++ u32Bytes value
    ++ u32Bytes osv ++ u64Bytes hw

/-- The spec's concrete scenario buffer: old header with count 0, no pad,
new header with count 1 and stringslen 10, one entry with key 0 / value 4,
string bytes "abc\0def\0\0\0" (98 bytes in total). -/
def c6buf : List Nat :=
  magicOldBytes ++ [0] ++ u32Bytes 0
    ++ magicNewBytes ++ u32Bytes 1 ++ u32Bytes 10 ++ List.replicate 20 0
    ++ entryBytes 0 0 4 0 0
    ++ [97, 98, 99, 0, 100, 101, 102, 0, 0, 0]

/-- The same buffer with the entry's offsets pointing at the string bytes
themselves: key 72 and value 76 relative to the new header. -/
def c6bufFixed : List Nat :=
  magicOldBytes ++ [0] ++ u32Bytes 0
    ++ magicNewBytes ++ u32Bytes 1 ++ u32Bytes 10 ++ List.replicate 20 0
    ++ entryBytes 0 72 76 0 0
    ++ [97, 98, 99, 0, 100, 101, 102, 0, 0, 0]

/-- A buffer with one old entry: the cursor after the old region is 28,
which is not a multiple of 8, so the new header is placed unaligned.
New header declares zero entries and a 1-byte string table (77 bytes). -/
def alignBuf : List Nat :=
  magicOldBytes ++ [0] ++ u32Bytes 1 ++ List.replicate 12 0
    ++ magicNewBytes ++ u32Bytes 0 ++ u32Bytes 1 ++ List.replicate 20 0
    ++ [0]

/-- A 72-byte buffer declaring `2 ^ 29` new entries: the byte size of the
declared entry array is `2 ^ 29 * 24 = 3 * 2 ^ 32`, which truncates to 0 in
the `uint32_t offset` local, so the bounds check and the exact-length check
both pass although the declared array never fits. -/
def overflowBuf : List Nat :=
  magicOldBytes ++ [0] ++ u32Bytes 0
    ++ magicNewBytes ++ u32Bytes 536870912 ++ u32Bytes 8 ++ List.replicate 20 0
    ++ List.replicate 8 0

/-! ### The string resolver's termination scan

The records are printed with `printf("%s", &strtab[off])` (lines 269-270):
the C library scans forward from the given address until the first 0 byte,
over raw memory, with no bound tied to the buffer.  To talk about which
addresses that scan touches we model memory as a total function from
addresses to bytes and give the scan explicit fuel (the C scan has none). -/

/-- Number of bytes strictly before the first 0 byte at or after `p`,
searching at most `fuel` positions: the length `strlen` computes. -/
def cstrScanLen (mem : Nat → Nat) : Nat → Nat → Nat
  | _, 0 => 0
  | p, fuel + 1 => if mem p = 0 then 0 else cstrScanLen mem (p + 1) fuel + 1

/-- The address of the terminating 0 byte: the last address the scan reads. -/
def lastReadAddr (mem : Nat → Nat) (p fuel : Nat) : Nat :=
  p + cstrScanLen mem p fuel

/-- A memory with no 0 byte below address 4 and a 0 byte everywhere from 4. -/
def exMem : Nat → Nat := fun a => if a < 4 then 1 else 0

/-- A memory whose only 0 byte below 4 is at address 2. -/
def exMemT : Nat → Nat := fun a => if a = 2 then 0 else 1

/-! ### A serializer for round-trip testing

Modelled from the spec: the repository contains no writer, but the spec's
testable properties call for "constructing a buffer from a known set of
records" (old header + old entries + pad + new header + new entries + string
table ending in a null byte) and parsing it back.  This serializer emits an
old header with zero old entries (so the new header lands at offset 16,
already 8-byte aligned and needing no pad), the new header, the new entry
array, and one null-terminated key and value string per record, with entry
offsets encoded relative to the new-header start exactly as the parser
resolves them, and one extra final null byte. -/

/-- String-table bytes contributed by one record. -/
def strBlock (r : LibEntryNew) : List Nat := r.key ++ [0] ++ r.value ++ [0]

/-- String-table bytes of all records, in file order. -/
def strsBytes : List LibEntryNew → List Nat
  | [] => []
  | r :: rs => strBlock r ++ strsBytes rs

/-- Total string-table bytes contributed by the first `i` records. -/
def strsLenTo : List LibEntryNew → Nat → Nat
  | _, 0 => 0
  | [], _ + 1 => 0
  | r :: rs, i + 1 => (strBlock r).length + strsLenTo rs i

/-- Serialized new-entry array: `pos` is the string-table-relative offset at
which the next record's key string will be placed. -/
def entryArrayBytes : Nat → List LibEntryNew → List Nat
  | _, [] => []
  | pos, r :: rs =>
      entryBytes r.flags pos (pos + r.key.length + 1) r.osversion r.hwcap
        ++ entryArrayBytes (pos + (strBlock r).length) rs

/-- String-table-relative offset of the key string of record `i`; its value
string follows at `serStrPos recs i + key length + 1`. -/
def serStrPos (recs : List LibEntryNew) (i : Nat) : Nat :=
  48 + 24 * recs.length + strsLenTo recs i

/-- A well-formed cache buffer holding exactly `recs`. -/
def serialize (recs : List LibEntryNew) : List Nat :=
  magicOldBytes ++ [0] ++ u32Bytes 0
    ++ magicNewBytes ++ u32Bytes recs.length
    ++ u32Bytes ((strsBytes recs).length + 1) ++ List.replicate 20 0
    ++ entryArrayBytes (48 + 24 * recs.length) recs
    ++ strsBytes recs ++ [0]

/-- Field bounds and null-freeness required of a record for serialization:
flags fits the `int16_t` bit pattern, osversion fits `uint32_t`, hwcap fits
`uint64_t`, and the strings are null-free byte sequences. -/
def WfRecord (r : LibEntryNew) : Prop :=
  r.flags < 65536 ∧ r.osversion < 4294967296 ∧ r.hwcap < 18446744073709551616
    ∧ (∀ b ∈ r.key, 0 < b ∧ b < 256) ∧ (∀ b ∈ r.value, 0 < b ∧ b < 256)

/-! ### Helper lemmas -/

/-- Lemma: `validatePtr` accepts exactly when the range end lies in the buffer. -/
theorem validatePtr_iff (b l p c : Nat) :
    validatePtr b l p c = true ↔ b ≤ p + c ∧ p + c < b + l := by
  simp only [validatePtr]
  split
  · rename_i h; simp only [Bool.false_eq_true, false_iff]; omega
  · rename_i h
    split
    · rename_i h2; simp only [Bool.false_eq_true, false_iff]; omega
    · rename_i h2; simp only [true_iff]; omega

/-- A successful parse implies every check passed and identifies the result. -/
theorem parse_eq_some (buf : List Nat) (r : List LibEntryNew)
    (h : ldcacheParse buf = some r) :
    check1 buf = true ∧ check2 buf = true ∧ check3 buf = true
      ∧ check4 buf = true ∧ check5 buf = true ∧ checkLen buf = true
      ∧ checkMagicOld buf = true ∧ checkMagicNew buf = true
      ∧ checkLastByte buf = true ∧ checkEntryOffsets buf = true
      ∧ r = parsedRecords buf := by
  unfold ldcacheParse at h
  split at h
  · rename_i hc
    simp only [Bool.and_eq_true] at hc
    obtain ⟨⟨⟨⟨⟨⟨⟨⟨⟨h1, h2⟩, h3⟩, h4⟩, h5⟩, h6⟩, h7⟩, h8⟩, h9⟩, h10⟩ := hc
    exact ⟨h1, h2, h3, h4, h5, h6, h7, h8, h9, h10, (Option.some.inj h).symm⟩
  · exact absurd h (by simp)

/-- If every check passes, the parse succeeds with the extracted records. -/
theorem parse_of_checks (buf : List Nat)
    (h1 : check1 buf = true) (h2 : check2 buf = true) (h3 : check3 buf = true)
    (h4 : check4 buf = true) (h5 : check5 buf = true) (h6 : checkLen buf = true)
    (h7 : checkMagicOld buf = true) (h8 : checkMagicNew buf = true)
    (h9 : checkLastByte buf = true) (h10 : checkEntryOffsets buf = true) :
    ldcacheParse buf = some (parsedRecords buf) := by
  unfold ldcacheParse
  rw [h1, h2, h3, h4, h5, h6, h7, h8, h9, h10]
  rfl

/-- The entry-offset loop passes exactly when every entry's two offsets
stay strictly below the buffer-end cursor. -/
theorem checkEntryOffsets_iff (buf : List Nat) :
    checkEntryOffsets buf = true
      ↔ ∀ i < nlibsNew buf,
          strtabOff buf + entryKey buf i < curEnd buf
            ∧ strtabOff buf + entryValue buf i < curEnd buf := by
  simp only [checkEntryOffsets, List.all_eq_true, List.mem_range,
    Bool.and_eq_true, decide_eq_true_eq]

/-- The alignment pad computed by the macro is 0 at every address. -/
theorem alignTypeOffset_eq_zero (addr : Nat) : alignTypeOffset addr = 0 := by
  rfl

/-! ### Claim theorems -/

/-- C1: the claim says the Layout Walker places the new header at the
smallest multiple-of-8 address at or after the cursor.  The code does not:
`ALIGN_TYPE_OFFSET` expands to `(align-1) & ~(align-1) = 0` — its `addr`
argument is unused — so the pad is always 0 bytes and `alignBuf`, whose
cursor after one old entry is the unaligned offset 28, has its new header
parsed at 28 (28 % 8 = 4), while the parse still succeeds. -/
theorem C1_alignment_bug :
    (∀ addr : Nat, alignTypeOffset addr = 0)
      ∧ ldcacheParse alignBuf = some []
      ∧ oldEnd alignBuf = 28 ∧ newHeaderOff alignBuf = 28
      ∧ 28 % 8 ≠ 0 := by
  refine ⟨alignTypeOffset_eq_zero, by decide, by decide, by decide, by decide⟩

/-- C4 counterexample: the claim's characterization of `validatePtr` fails.
The fully-contained range `[0, 10)` inside `[0, 10)` is rejected (its end
equals base+limit); a zero-count pointer equal to the one-past-the-end
address 10 is rejected; and at base 5, limit 10 the range `[0, 7)` is
accepted although it is not contained in `[5, 15)` (the start pointer is
never compared). -/
theorem C4_counterexample :
    validatePtr 0 10 0 10 = false ∧ validatePtr 0 10 10 0 = false
      ∧ (validatePtr 5 10 0 7 = true ∧ ¬ (5 ≤ (0 : Nat))) := by
  decide

/-- C4 amended: `validatePtr base limit ptr count` returns true iff the end
pointer `ptr + count` lies within `[base, base + limit)`; consequently a
`count = 0` call requires the pointer to be strictly inside the buffer, a
non-empty range ending exactly at `base + limit` is rejected, and the start
pointer itself is never checked. -/
theorem C4_amended (b l p c : Nat) :
    validatePtr b l p c = true ↔ b ≤ p + c ∧ p + c < b + l :=
  validatePtr_iff b l p c

/-- C10: a successful parse implies a non-empty string table: the new-entry
reservation's bounds check leaves the cursor strictly below the buffer end,
and the exact-length check then forces `stringslen` to make up at least one
byte. -/
theorem C10_stringslen_positive (buf : List Nat) (r : List LibEntryNew)
    (h : ldcacheParse buf = some r) : 1 ≤ stringslen buf := by
  obtain ⟨-, -, -, -, h5, h6, -⟩ := parse_eq_some buf r h
  unfold check5 at h5
  have h5' := (validatePtr_iff _ _ _ _).mp h5
  have h6' : curEnd buf = buf.length := by
    simpa [checkLen] using h6
  have hlim : limit32 buf ≤ buf.length := Nat.mod_le _ _
  unfold curEnd curAfterEntries at h6'
  omega

/-- C10 witness: the concrete fixed scenario buffer parses and indeed has a
non-empty string table. -/
theorem C10_witness : 1 ≤ stringslen c6bufFixed :=
  C10_stringslen_positive c6bufFixed
    [⟨0, [97, 98, 99], [100, 101, 102], 0, 0⟩] (by decide)

/-- Reading a byte at or past the allocation end yields the model's 0. -/
theorem readByte_oob (buf : List Nat) (i : Nat) (h : buf.length ≤ i) :
    readByte buf i = 0 := by
  unfold readByte
  induction buf generalizing i with
  | nil => cases i <;> rfl
  | cons x xs ih =>
      cases i with
      | zero => simp at h
      | succ n => simpa using ih n (by simpa using h)

/-- A 32-bit read entirely past the allocation end yields 0. -/
theorem readU32_oob (buf : List Nat) (i : Nat) (h : buf.length ≤ i) :
    readU32 buf i = 0 := by
  unfold readU32
  rw [readByte_oob buf i h, readByte_oob buf (i + 1) (by omega),
    readByte_oob buf (i + 2) (by omega), readByte_oob buf (i + 3) (by omega)]

/-- The 72-byte overflow buffer passes the string-offset loop: the fields
of entry 0 read as 0 from the zeroed string region (and past the end), and
every later entry lies wholly past the allocation, reading as 0. -/
theorem overflowBuf_entryOffsets : checkEntryOffsets overflowBuf = true := by
  rw [checkEntryOffsets_iff]
  intro i hi
  match i with
  | 0 => exact ⟨by decide, by decide⟩
  | n + 1 =>
      have hoff : libsNewOff overflowBuf = 64 := by decide
      have hlen : overflowBuf.length = 72 := by decide
      have hk : entryKey overflowBuf (n + 1) = 0 := by
        unfold entryKey
        exact readU32_oob _ _ (by simp only [hoff, hlen, sizeofEntryNew]; omega)
      have hv : entryValue overflowBuf (n + 1) = 0 := by
        unfold entryValue
        exact readU32_oob _ _ (by simp only [hoff, hlen, sizeofEntryNew]; omega)
      have hst : strtabOff overflowBuf = 16 := by decide
      have hce : curEnd overflowBuf = 72 := by decide
      rw [hk, hv, hst, hce]
      exact ⟨by omega, by omega⟩

/-- The overflow buffer passes every check and is accepted. -/
theorem overflowBuf_parses :
    ldcacheParse overflowBuf = some (parsedRecords overflowBuf) := by
  exact parse_of_checks overflowBuf (by decide) (by decide) (by decide)
    (by decide) (by decide) (by decide) (by decide) (by decide) (by decide)
    overflowBuf_entryOffsets

/-- C5: the claim says the entry-array byte size handed to the bounds check
is the exact product of the count and the entry size, with the
multiplication overflow-guarded.  The code stores
`header_new->nlibs * sizeof(struct libentry_new)` into a `uint32_t`, so for
the 72-byte buffer declaring `2 ^ 29` entries the product `3 * 2 ^ 32`
truncates to 0, every check passes, and the parse accepts a buffer whose
declared entry array could never fit. -/
theorem C5_overflow_bug :
    (ldcacheParse overflowBuf).isSome = true
      ∧ nlibsNew overflowBuf = 536870912
      ∧ u32Mod ≤ nlibsNew overflowBuf * sizeofEntryNew
      ∧ newEntriesBytes overflowBuf = 0
      ∧ overflowBuf.length = 72 := by
  refine ⟨?_, by decide, by decide, by decide, by decide⟩
  rw [overflowBuf_parses]
  rfl

/-- C8 counterexample: the claim's arithmetic reading — new-header start
plus header size plus the mathematical product `count_new * sizeof(NewEntry)`
plus stringslen equals the buffer end — fails on the accepted overflow
buffer, where the cursor only advanced by the truncated product. -/
theorem C8_counterexample :
    (ldcacheParse overflowBuf).isSome = true
      ∧ newHeaderOff overflowBuf + sizeofHeaderNew
          + nlibsNew overflowBuf * sizeofEntryNew + stringslen overflowBuf
        ≠ overflowBuf.length := by
  refine ⟨?_, by decide⟩
  rw [overflowBuf_parses]
  rfl

/-- C8 amended: a parse succeeds only if the new-header start plus
`sizeof(NewHeader)` plus the product `count_new * sizeof(NewEntry)`
truncated to 32 bits plus `stringslen` equals the buffer length exactly;
any other total is rejected. -/
theorem C8_amended (buf : List Nat) (r : List LibEntryNew)
    (h : ldcacheParse buf = some r) :
    newHeaderOff buf + sizeofHeaderNew
      + nlibsNew buf * sizeofEntryNew % u32Mod + stringslen buf
      = buf.length := by
  obtain ⟨-, -, -, -, -, h6, -⟩ := parse_eq_some buf r h
  have h6' : curEnd buf = buf.length := by simpa [checkLen] using h6
  unfold curEnd curAfterEntries libsNewOff newEntriesBytes at h6'
  exact h6'

/-- C8 witness: the exact-length identity instantiated at the accepted
spec-scenario buffer. -/
theorem C8_witness :
    newHeaderOff c6buf + sizeofHeaderNew
      + nlibsNew c6buf * sizeofEntryNew % u32Mod + stringslen c6buf
      = c6buf.length :=
  C8_amended c6buf
    [⟨0, magicNewBytes ++ [1], List.drop 4 magicNewBytes ++ [1], 0, 0⟩]
    (by decide)

/-- C2 counterexample: the claim says the cursor never advances by
`stringslen` without the range first being certified by the Bounds
Validator.  On the accepted spec-scenario buffer the Bounds Validator,
applied to exactly that reservation, answers false (the range ends at the
buffer end, which `validatePtr` rejects), so no such certification ever
happened — the code advances unconditionally and relies on the later
exact-length check. -/
theorem C2_counterexample :
    ldcacheParse c6buf
        = some [⟨0, magicNewBytes ++ [1], List.drop 4 magicNewBytes ++ [1], 0, 0⟩]
      ∧ validatePtr 0 (limit32 c6buf) (curAfterEntries c6buf) (stringslen c6buf)
          = false := by
  decide

/-- C2 amended: the old-header, old-entry-array, alignment-pad, new-header
and new-entry-array reservations are each bounds-validated before the
cursor advances, and any failure aborts the parse; the string-table
reservation is not pre-validated — instead the parse checks afterwards
that the cursor equals the buffer end exactly. -/
theorem C2_amended (buf : List Nat) (r : List LibEntryNew)
    (h : ldcacheParse buf = some r) :
    check1 buf = true ∧ check2 buf = true ∧ check3 buf = true
      ∧ check4 buf = true ∧ check5 buf = true
      ∧ curEnd buf = buf.length := by
  obtain ⟨h1, h2, h3, h4, h5, h6, -⟩ := parse_eq_some buf r h
  exact ⟨h1, h2, h3, h4, h5, by simpa [checkLen] using h6⟩

/-- C2 witness: the five pre-advance validations and the exact-length
equality, instantiated at the accepted fixed scenario buffer. -/
theorem C2_witness :
    check1 c6bufFixed = true ∧ check2 c6bufFixed = true
      ∧ check3 c6bufFixed = true ∧ check4 c6bufFixed = true
      ∧ check5 c6bufFixed = true ∧ curEnd c6bufFixed = c6bufFixed.length :=
  C2_amended c6bufFixed [⟨0, [97, 98, 99], [100, 101, 102], 0, 0⟩] (by decide)

/-- C3 counterexample: the claim requires `key < stringslen` for a parse to
succeed, but `c6bufFixed` is accepted with entry key offset 72 against
`stringslen = 10`: the code compares `strtab + key` against the buffer end,
and `strtab` is the new-header start, not the strings region. -/
theorem C3_counterexample :
    ldcacheParse c6bufFixed = some [⟨0, [97, 98, 99], [100, 101, 102], 0, 0⟩]
      ∧ stringslen c6bufFixed = 10
      ∧ entryKey c6bufFixed 0 = 72
      ∧ ¬ (entryKey c6bufFixed 0 < stringslen c6bufFixed) := by
  decide

/-- C3 amended: a parse succeeds only if, for every entry, the new-header
start plus the entry's key offset and value offset each fall strictly
inside the buffer (the bound is the whole distance from the string-table
base — the new-header start — to the buffer end, not `stringslen`); any
single violating entry fails the whole parse. -/
theorem C3_amended (buf : List Nat) (r : List LibEntryNew)
    (h : ldcacheParse buf = some r) :
    ∀ i < nlibsNew buf,
      strtabOff buf + entryKey buf i < buf.length
        ∧ strtabOff buf + entryValue buf i < buf.length := by
  obtain ⟨-, -, -, -, -, h6, -, -, -, h10, -⟩ := parse_eq_some buf r h
  have h6' : curEnd buf = buf.length := by simpa [checkLen] using h6
  intro i hi
  obtain ⟨hk, hv⟩ := (checkEntryOffsets_iff buf).mp h10 i hi
  exact ⟨h6' ▸ hk, h6' ▸ hv⟩

/-- C3 witness: the in-buffer bound instantiated at the accepted fixed
scenario buffer's single entry. -/
theorem C3_witness :
    strtabOff c6bufFixed + entryKey c6bufFixed 0 < c6bufFixed.length
      ∧ strtabOff c6bufFixed + entryValue c6bufFixed 0 < c6bufFixed.length :=
  C3_amended c6bufFixed [⟨0, [97, 98, 99], [100, 101, 102], 0, 0⟩]
    (by decide) 0 (by decide)

/-- C6 counterexample: the spec's concrete scenario buffer (key offset 0,
value offset 4) is accepted, but because string offsets resolve from the
new-header start the single record's strings are the new magic bytes
followed by the count byte — not "abc" and "def". -/
theorem C6_counterexample :
    ldcacheParse c6buf
        = some [⟨0, magicNewBytes ++ [1], List.drop 4 magicNewBytes ++ [1], 0, 0⟩]
      ∧ magicNewBytes ++ [1] ≠ [97, 98, 99]
      ∧ List.drop 4 magicNewBytes ++ [1] ≠ [100, 101, 102] := by
  decide

/-- C6 amended: the same scenario buffer with the entry offsets adjusted to
point at the string bytes — key 72 and value 76, measured from the
new-header start — parses to exactly one record with key "abc" and value
"def". -/
theorem C6_amended :
    ldcacheParse c6bufFixed
      = some [⟨0, [97, 98, 99], [100, 101, 102], 0, 0⟩] := by
  decide

/-- The scan length is bounded by any null position it can reach in fuel. -/
theorem cstrScanLen_le (mem : Nat → Nat) :
    ∀ fuel p k : Nat, k < fuel → mem (p + k) = 0 → cstrScanLen mem p fuel ≤ k := by
  intro fuel
  induction fuel with
  | zero => intro p k hk _; exact absurd hk (Nat.not_lt_zero k)
  | succ fuel ih =>
      intro p k hk hmem
      unfold cstrScanLen
      split
      · omega
      · rename_i hp
        cases k with
        | zero => exact absurd hmem (by simpa using hp)
        | succ k' =>
            have harg : p + 1 + k' = p + (k' + 1) := by omega
            have := ih (p + 1) k' (by omega) (by rw [harg]; exact hmem)
            omega

/-- C9 counterexample: take a string table occupying `[0, 4)` with no null
terminator inside it (`exMem` is 1 on every address below 4), and resolve
offset 0.  The resolver's termination scan runs to the first null byte
wherever it lies: here its terminating read is at address 4, which is
outside the table — refuting the claim that the scan is bounded by `end`. -/
theorem C9_counterexample :
    (∀ a : Fin 4, exMem a.val ≠ 0)
      ∧ cstrScanLen exMem 0 8 = 4
      ∧ exMem (lastReadAddr exMem 0 8) = 0
      ∧ ¬ (lastReadAddr exMem 0 8 < 4) := by
  decide

/-- C9 amended: the resolver's termination scan is bounded by the first
null byte, not by `end`; whenever some null byte exists before `end` at or
after the scan start (which the parser's final-byte check guarantees for
every accepted buffer), every address the scan reads lies within
`[base, end)`. -/
theorem C9_amended (mem : Nat → Nat) (base e p fuel k : Nat)
    (hbase : base ≤ p) (hin : p + k < e) (hnul : mem (p + k) = 0)
    (hfuel : k < fuel) :
    base ≤ lastReadAddr mem p fuel ∧ lastReadAddr mem p fuel < e := by
  have := cstrScanLen_le mem fuel p k hfuel hnul
  unfold lastReadAddr
  omega

/-- C9 witness: a memory with a terminator at address 2 keeps the scan
from base 0 with end 4 inside the table. -/
theorem C9_witness :
    0 ≤ lastReadAddr exMemT 0 10 ∧ lastReadAddr exMemT 0 10 < 4 :=
  C9_amended exMemT 0 4 0 10 2 (by decide) (by decide) (by decide) (by decide)

/-! ### Byte-level access lemmas for the round-trip proof -/

/-- Reading past a prefix reads the suffix. -/
theorem readByte_append_add (a b : List Nat) (i : Nat) :
    readByte (a ++ b) (a.length + i) = readByte b i := by
  unfold readByte
  induction a with
  | nil => simp
  | cons x xs ih =>
      have hidx : (x :: xs).length + i = (xs.length + i) + 1 := by
        simp only [List.length_cons]; omega
      rw [hidx, List.cons_append, List.getD_cons_succ]
      exact ih

/-- A 16-bit field read back from its serialized position. -/
theorem readU16_after (a : List Nat) (n : Nat) (c : List Nat) :
    readU16 (a ++ (u16Bytes n ++ c)) a.length = n % 65536 := by
  unfold readU16
  have h0 := readByte_append_add a (u16Bytes n ++ c) 0
  have h1 := readByte_append_add a (u16Bytes n ++ c) 1
  rw [Nat.add_zero] at h0
  rw [h0, h1]
  show n % 256 + 256 * (n / 256 % 256) = n % 65536
  omega

/-- A 32-bit field read back from its serialized position. -/
theorem readU32_after (a : List Nat) (n : Nat) (c : List Nat) :
    readU32 (a ++ (u32Bytes n ++ c)) a.length = n % u32Mod := by
  unfold readU32
  have h0 := readByte_append_add a (u32Bytes n ++ c) 0
  have h1 := readByte_append_add a (u32Bytes n ++ c) 1
  have h2 := readByte_append_add a (u32Bytes n ++ c) 2
  have h3 := readByte_append_add a (u32Bytes n ++ c) 3
  rw [Nat.add_zero] at h0
  rw [h0, h1, h2, h3]
  show n % 256 + 256 * (n / 256 % 256) + 65536 * (n / 65536 % 256)
      + 16777216 * (n / 16777216 % 256) = n % u32Mod
  unfold u32Mod
  omega

/-- A 64-bit field read back from its serialized position. -/
theorem readU64_after (a : List Nat) (n : Nat) (c : List Nat) :
    readU64 (a ++ (u64Bytes n ++ c)) a.length
      = n % 18446744073709551616 := by
  unfold readU64 u64Bytes
  have heq : a ++ ((u32Bytes (n % u32Mod) ++ u32Bytes (n / u32Mod)) ++ c)
      = a ++ (u32Bytes (n % u32Mod) ++ (u32Bytes (n / u32Mod) ++ c)) := by
    simp [List.append_assoc]
  rw [heq, readU32_after]
  have heq2 : a ++ (u32Bytes (n % u32Mod) ++ (u32Bytes (n / u32Mod) ++ c))
      = (a ++ u32Bytes (n % u32Mod)) ++ (u32Bytes (n / u32Mod) ++ c) := by
    simp [List.append_assoc]
  have hlen4 : a.length + 4 = (a ++ u32Bytes (n % u32Mod)).length := by
    simp [u32Bytes]
  rw [heq2, hlen4, readU32_after]
  show n % u32Mod % u32Mod + 4294967296 * (n / u32Mod % u32Mod)
      = n % 18446744073709551616
  unfold u32Mod
  omega

/-- The single byte at a serialized position. -/
theorem readByte_at (a : List Nat) (x : Nat) (b : List Nat) :
    readByte (a ++ (x :: b)) a.length = x := by
  have := readByte_append_add a (x :: b) 0
  rw [Nat.add_zero] at this
  rw [this]
  rfl

/-- A null-free string followed by a null reads back exactly. -/
theorem takeWhile_nulfree (s rest : List Nat) (hs : ∀ x ∈ s, x ≠ 0) :
    (s ++ 0 :: rest).takeWhile (fun b => b ≠ 0) = s := by
  induction s with
  | nil => simp [List.takeWhile_cons]
  | cons x s ih =>
      have hx : x ≠ 0 := hs x (by simp)
      have hpx : decide (x ≠ 0) = true := by simp [hx]
      rw [List.cons_append, List.takeWhile_cons, if_pos hpx,
        ih fun y hy => hs y (by simp [hy])]

/-- The string extracted at a serialized position is the stored string. -/
theorem extractString_at (a s rest : List Nat) (hs : ∀ x ∈ s, x ≠ 0) :
    extractString (a ++ (s ++ 0 :: rest)) a.length = s := by
  unfold extractString
  rw [List.drop_left]
  exact takeWhile_nulfree s rest hs

/-- Length of a serialized 64-bit field. -/
theorem u64Bytes_length (n : Nat) : (u64Bytes n).length = 8 := by
  simp [u64Bytes, u32Bytes]

/-- Length of one serialized entry: `sizeof(struct libentry_new)`. -/
theorem entryBytes_length (f k v o hw : Nat) :
    (entryBytes f k v o hw).length = 24 := by
  simp [entryBytes, u16Bytes, u32Bytes, u64Bytes]

/-- Length of the serialized entry array. -/
theorem entryArrayBytes_length (rs : List LibEntryNew) :
    ∀ pos, (entryArrayBytes pos rs).length = 24 * rs.length := by
  induction rs with
  | nil => intro pos; rfl
  | cons r rs ih =>
      intro pos
      simp only [entryArrayBytes, List.length_append, List.length_cons,
        entryBytes_length, ih]
      omega

/-- Byte length of one record's string block. -/
theorem strBlock_length (r : LibEntryNew) :
    (strBlock r).length = r.key.length + r.value.length + 2 := by
  simp only [strBlock, List.length_append, List.length_cons, List.length_nil]
  omega

/-- The serialized entry array splits at entry `i` into a `24 * i`-byte
prefix, the 24 bytes of entry `i` (whose offsets point `strsLenTo rs i` bytes
into the string region), and a suffix. -/
theorem entryArrayBytes_split (rs : List LibEntryNew) :
    ∀ (pos i : Nat) (hi : i < rs.length),
      ∃ A B : List Nat,
        entryArrayBytes pos rs
          = A ++ (entryBytes (rs.get ⟨i, hi⟩).flags (pos + strsLenTo rs i)
              (pos + strsLenTo rs i + (rs.get ⟨i, hi⟩).key.length + 1)
              (rs.get ⟨i, hi⟩).osversion (rs.get ⟨i, hi⟩).hwcap ++ B)
          ∧ A.length = 24 * i := by
  induction rs with
  | nil => intro pos i hi; exact absurd hi (by simp)
  | cons r rs ih =>
      intro pos i hi
      cases i with
      | zero =>
          exact ⟨[], entryArrayBytes (pos + (strBlock r).length) rs, rfl, rfl⟩
      | succ i =>
          obtain ⟨A, B, hAB, hA⟩ :=
            ih (pos + (strBlock r).length) i (by simpa using hi)
          refine ⟨entryBytes r.flags pos (pos + r.key.length + 1)
              r.osversion r.hwcap ++ A, B, ?_, ?_⟩
          · have hps : pos + strsLenTo (r :: rs) (i + 1)
                = pos + (strBlock r).length + strsLenTo rs i := by
              simp only [strsLenTo]; omega
            show entryArrayBytes pos (r :: rs) = _
            rw [show entryArrayBytes pos (r :: rs)
                = entryBytes r.flags pos (pos + r.key.length + 1)
                    r.osversion r.hwcap
                  ++ entryArrayBytes (pos + (strBlock r).length) rs from rfl,
              hAB, hps]
            simp [List.append_assoc]
          · simp only [List.length_append, entryBytes_length, hA]
            omega

/-- The serialized string region splits at record `i` into a prefix of
length `strsLenTo rs i`, the string block of record `i`, and a suffix. -/
theorem strsBytes_split (rs : List LibEntryNew) :
    ∀ (i : Nat) (hi : i < rs.length),
      ∃ P C : List Nat,
        strsBytes rs = P ++ (strBlock (rs.get ⟨i, hi⟩) ++ C)
          ∧ P.length = strsLenTo rs i := by
  induction rs with
  | nil => intro i hi; exact absurd hi (by simp)
  | cons r rs ih =>
      intro i hi
      cases i with
      | zero => exact ⟨[], strsBytes rs, rfl, rfl⟩
      | succ i =>
          obtain ⟨P, C, hPC, hP⟩ := ih i (by simpa using hi)
          refine ⟨strBlock r ++ P, C, ?_, ?_⟩
          · show strsBytes (r :: rs) = _
            rw [show strsBytes (r :: rs) = strBlock r ++ strsBytes rs from rfl,
              hPC]
            simp [List.append_assoc]
          · simp only [List.length_append, hP, strsLenTo]

/-- The string block of record `i` fits inside the string region. -/
theorem strsLenTo_block_le (rs : List LibEntryNew) :
    ∀ (i : Nat) (hi : i < rs.length),
      strsLenTo rs i + (strBlock (rs.get ⟨i, hi⟩)).length
        ≤ (strsBytes rs).length := by
  induction rs with
  | nil => intro i hi; exact absurd hi (by simp)
  | cons r rs ih =>
      intro i hi
      cases i with
      | zero =>
          show 0 + (strBlock r).length ≤ (strBlock r ++ strsBytes rs).length
          simp only [List.length_append]
          omega
      | succ i =>
          have h := ih i (by simpa using hi)
          have e1 : strsLenTo (r :: rs) (i + 1)
              = (strBlock r).length + strsLenTo rs i := rfl
          have e2 : strsBytes (r :: rs) = strBlock r ++ strsBytes rs := rfl
          have e3 : (r :: rs).get ⟨i + 1, hi⟩
              = rs.get ⟨i, by simpa using hi⟩ := rfl
          rw [e1, e2, e3, List.length_append]
          omega

/-- Each field of a serialized entry reads back (modulo its width) from
the entry's position in the buffer. -/
theorem entryBytes_reads (a tail : List Nat) (f k v o hw : Nat) :
    readU16 (a ++ (entryBytes f k v o hw ++ tail)) a.length = f % 65536
      ∧ readU32 (a ++ (entryBytes f k v o hw ++ tail)) (a.length + 4)
          = k % u32Mod
      ∧ readU32 (a ++ (entryBytes f k v o hw ++ tail)) (a.length + 8)
          = v % u32Mod
      ∧ readU32 (a ++ (entryBytes f k v o hw ++ tail)) (a.length + 12)
          = o % u32Mod
      ∧ readU64 (a ++ (entryBytes f k v o hw ++ tail)) (a.length + 16)
          = hw % 18446744073709551616 := by
  refine ⟨?_, ?_, ?_, ?_, ?_⟩
  · have h : a ++ (entryBytes f k v o hw ++ tail)
        = a ++ (u16Bytes f ++ ([0, 0] ++ (u32Bytes k ++ (u32Bytes v
            ++ (u32Bytes o ++ (u64Bytes hw ++ tail)))))) := by
      simp [entryBytes, List.append_assoc]
    rw [h, readU16_after]
  · have h : a ++ (entryBytes f k v o hw ++ tail)
        = (a ++ (u16Bytes f ++ [0, 0])) ++ (u32Bytes k ++ (u32Bytes v
            ++ (u32Bytes o ++ (u64Bytes hw ++ tail)))) := by
      simp [entryBytes, List.append_assoc]
    have hl : (a ++ (u16Bytes f ++ [0, 0])).length = a.length + 4 := by
      simp [u16Bytes]
    rw [h, ← hl, readU32_after]
  · have h : a ++ (entryBytes f k v o hw ++ tail)
        = (a ++ (u16Bytes f ++ ([0, 0] ++ u32Bytes k))) ++ (u32Bytes v
            ++ (u32Bytes o ++ (u64Bytes hw ++ tail))) := by
      simp [entryBytes, List.append_assoc]
    have hl : (a ++ (u16Bytes f ++ ([0, 0] ++ u32Bytes k))).length
        = a.length + 8 := by
      simp [u16Bytes, u32Bytes]
    rw [h, ← hl, readU32_after]
  · have h : a ++ (entryBytes f k v o hw ++ tail)
        = (a ++ (u16Bytes f ++ ([0, 0] ++ (u32Bytes k ++ u32Bytes v))))
            ++ (u32Bytes o ++ (u64Bytes hw ++ tail)) := by
      simp [entryBytes, List.append_assoc]
    have hl : (a ++ (u16Bytes f ++ ([0, 0] ++ (u32Bytes k ++ u32Bytes v)))).length
        = a.length + 12 := by
      simp [u16Bytes, u32Bytes]
    rw [h, ← hl, readU32_after]
  · have h : a ++ (entryBytes f k v o hw ++ tail)
        = (a ++ (u16Bytes f ++ ([0, 0] ++ (u32Bytes k ++ (u32Bytes v
            ++ u32Bytes o))))) ++ (u64Bytes hw ++ tail) := by
      simp [entryBytes, List.append_assoc]
    have hl : (a ++ (u16Bytes f ++ ([0, 0] ++ (u32Bytes k ++ (u32Bytes v
        ++ u32Bytes o))))).length = a.length + 16 := by
      simp [u16Bytes, u32Bytes]
    rw [h, ← hl, readU64_after]

/-- The serialized old-header count field reads back as 0. -/
theorem nlibsOld_serialize (recs : List LibEntryNew) :
    nlibsOld (serialize recs) = 0 := by
  have hdec : serialize recs
      = (magicOldBytes ++ [0]) ++ (u32Bytes 0
          ++ (magicNewBytes ++ (u32Bytes recs.length
          ++ (u32Bytes ((strsBytes recs).length + 1)
          ++ (List.replicate 20 0
          ++ (entryArrayBytes (48 + 24 * recs.length) recs
          ++ (strsBytes recs ++ [0]))))))) := by
    simp [serialize, List.append_assoc]
  have hlen : (magicOldBytes ++ [0] : List Nat).length = 12 := rfl
  unfold nlibsOld
  rw [hdec, ← hlen, readU32_after]
  rfl

/-- The serialized buffer's old region ends at offset 16. -/
theorem oldEnd_serialize (recs : List LibEntryNew) :
    oldEnd (serialize recs) = 16 := by
  unfold oldEnd oldEntriesBytes
  rw [nlibsOld_serialize]
  rfl

/-- The serialized new header sits at offset 16 (no old entries, zero pad). -/
theorem newHeaderOff_serialize (recs : List LibEntryNew) :
    newHeaderOff (serialize recs) = 16 := by
  unfold newHeaderOff
  rw [oldEnd_serialize, alignTypeOffset_eq_zero]

/-- The serialized new-entry array sits at offset 64. -/
theorem libsNewOff_serialize (recs : List LibEntryNew) :
    libsNewOff (serialize recs) = 64 := by
  unfold libsNewOff
  rw [newHeaderOff_serialize]
  rfl

/-- The serialized string-table base is the new header, offset 16. -/
theorem strtabOff_serialize (recs : List LibEntryNew) :
    strtabOff (serialize recs) = 16 := by
  unfold strtabOff
  exact newHeaderOff_serialize recs

/-- The serialized new-header count field reads back as the record count. -/
theorem nlibsNew_serialize (recs : List LibEntryNew) :
    nlibsNew (serialize recs) = recs.length % u32Mod := by
  have hdec : serialize recs
      = (magicOldBytes ++ ([0] ++ (u32Bytes 0 ++ magicNewBytes)))
          ++ (u32Bytes recs.length
          ++ (u32Bytes ((strsBytes recs).length + 1)
          ++ (List.replicate 20 0
          ++ (entryArrayBytes (48 + 24 * recs.length) recs
          ++ (strsBytes recs ++ [0]))))) := by
    simp [serialize, List.append_assoc]
  have hlen : (magicOldBytes ++ ([0] ++ (u32Bytes 0 ++ magicNewBytes))
      : List Nat).length = 36 := rfl
  unfold nlibsNew
  rw [newHeaderOff_serialize]
  have hidx : (16 : Nat) + 20 = 36 := rfl
  rw [hidx, hdec, ← hlen, readU32_after]

/-- The serialized stringslen field reads back as the strings length + 1. -/
theorem stringslen_serialize (recs : List LibEntryNew) :
    stringslen (serialize recs) = ((strsBytes recs).length + 1) % u32Mod := by
  have hdec : serialize recs
      = (magicOldBytes ++ ([0] ++ (u32Bytes 0
          ++ (magicNewBytes ++ u32Bytes recs.length))))
          ++ (u32Bytes ((strsBytes recs).length + 1)
          ++ (List.replicate 20 0
          ++ (entryArrayBytes (48 + 24 * recs.length) recs
          ++ (strsBytes recs ++ [0])))) := by
    simp [serialize, List.append_assoc]
  have hlen : (magicOldBytes ++ ([0] ++ (u32Bytes 0
      ++ (magicNewBytes ++ u32Bytes recs.length))) : List Nat).length = 40 := by
    simp [magicOldBytes, magicNewBytes, u32Bytes]
  unfold stringslen
  rw [newHeaderOff_serialize]
  have hidx : (16 : Nat) + 24 = 40 := rfl
  rw [hidx, hdec, ← hlen, readU32_after]

/-- Total length of a serialized buffer. -/
theorem serialize_length (recs : List LibEntryNew) :
    (serialize recs).length
      = 65 + 24 * recs.length + (strsBytes recs).length := by
  simp [serialize, magicOldBytes, magicNewBytes, u32Bytes,
    entryArrayBytes_length]
  omega

/-- Each stored field of serialized entry `i` reads back modulo its width. -/
theorem serialize_entry_fields (recs : List LibEntryNew) (i : Nat)
    (hi : i < recs.length) :
    entryFlags (serialize recs) i = (recs.get ⟨i, hi⟩).flags % 65536
      ∧ entryKey (serialize recs) i = serStrPos recs i % u32Mod
      ∧ entryValue (serialize recs) i
          = (serStrPos recs i + (recs.get ⟨i, hi⟩).key.length + 1) % u32Mod
      ∧ entryOsversion (serialize recs) i
          = (recs.get ⟨i, hi⟩).osversion % u32Mod
      ∧ entryHwcap (serialize recs) i
          = (recs.get ⟨i, hi⟩).hwcap % 18446744073709551616 := by
  obtain ⟨A, B, hAB, hA⟩ :=
    entryArrayBytes_split recs (48 + 24 * recs.length) i hi
  have hser : serialize recs
      = (magicOldBytes ++ ([0] ++ (u32Bytes 0 ++ (magicNewBytes
          ++ (u32Bytes recs.length ++ (u32Bytes ((strsBytes recs).length + 1)
          ++ (List.replicate 20 0 ++ A)))))))
        ++ (entryBytes (recs.get ⟨i, hi⟩).flags
              (48 + 24 * recs.length + strsLenTo recs i)
              (48 + 24 * recs.length + strsLenTo recs i
                + (recs.get ⟨i, hi⟩).key.length + 1)
              (recs.get ⟨i, hi⟩).osversion (recs.get ⟨i, hi⟩).hwcap
            ++ (B ++ (strsBytes recs ++ [0]))) := by
    rw [serialize, hAB]
    simp [List.append_assoc]
  have hpre : (magicOldBytes ++ ([0] ++ (u32Bytes 0 ++ (magicNewBytes
      ++ (u32Bytes recs.length ++ (u32Bytes ((strsBytes recs).length + 1)
      ++ (List.replicate 20 0 ++ A))))))).length = 64 + 24 * i := by
    simp [magicOldBytes, magicNewBytes, u32Bytes, hA]
    omega
  obtain ⟨hf, hk, hv, ho, hh⟩ :=
    entryBytes_reads (magicOldBytes ++ ([0] ++ (u32Bytes 0 ++ (magicNewBytes
        ++ (u32Bytes recs.length ++ (u32Bytes ((strsBytes recs).length + 1)
        ++ (List.replicate 20 0 ++ A)))))))
      (B ++ (strsBytes recs ++ [0]))
      (recs.get ⟨i, hi⟩).flags
      (48 + 24 * recs.length + strsLenTo recs i)
      (48 + 24 * recs.length + strsLenTo recs i
        + (recs.get ⟨i, hi⟩).key.length + 1)
      (recs.get ⟨i, hi⟩).osversion (recs.get ⟨i, hi⟩).hwcap
  rw [hpre] at hf hk hv ho hh
  refine ⟨?_, ?_, ?_, ?_, ?_⟩
  · unfold entryFlags sizeofEntryNew
    rw [libsNewOff_serialize, hser]
    exact hf
  · unfold entryKey sizeofEntryNew
    rw [libsNewOff_serialize, hser]
    exact hk
  · unfold entryValue sizeofEntryNew
    rw [libsNewOff_serialize, hser]
    exact hv
  · unfold entryOsversion sizeofEntryNew
    rw [libsNewOff_serialize, hser]
    exact ho
  · unfold entryHwcap sizeofEntryNew
    rw [libsNewOff_serialize, hser]
    exact hh

/-- The null-terminated strings of serialized record `i` read back exactly,
resolved (as the parser does) from the new-header start at offset 16. -/
theorem serialize_strings (recs : List LibEntryNew) (i : Nat)
    (hi : i < recs.length)
    (hknf : ∀ b ∈ (recs.get ⟨i, hi⟩).key, b ≠ 0)
    (hvnf : ∀ b ∈ (recs.get ⟨i, hi⟩).value, b ≠ 0) :
    extractString (serialize recs) (16 + serStrPos recs i)
        = (recs.get ⟨i, hi⟩).key
      ∧ extractString (serialize recs)
          (16 + serStrPos recs i + (recs.get ⟨i, hi⟩).key.length + 1)
        = (recs.get ⟨i, hi⟩).value := by
  obtain ⟨P, C, hPC, hP⟩ := strsBytes_split recs i hi
  constructor
  · have hser : serialize recs
        = (magicOldBytes ++ ([0] ++ (u32Bytes 0 ++ (magicNewBytes
            ++ (u32Bytes recs.length
            ++ (u32Bytes ((strsBytes recs).length + 1)
            ++ (List.replicate 20 0
            ++ (entryArrayBytes (48 + 24 * recs.length) recs ++ P))))))))
          ++ ((recs.get ⟨i, hi⟩).key
              ++ 0 :: ((recs.get ⟨i, hi⟩).value ++ 0 :: (C ++ [0]))) := by
      rw [serialize, hPC]
      simp [strBlock, List.append_assoc]
    have hpre : (magicOldBytes ++ ([0] ++ (u32Bytes 0 ++ (magicNewBytes
        ++ (u32Bytes recs.length ++ (u32Bytes ((strsBytes recs).length + 1)
        ++ (List.replicate 20 0
        ++ (entryArrayBytes (48 + 24 * recs.length) recs ++ P)))))))).length
        = 16 + serStrPos recs i := by
      simp [magicOldBytes, magicNewBytes, u32Bytes, entryArrayBytes_length,
        hP, serStrPos]
      omega
    rw [hser, ← hpre]
    exact extractString_at _ _ _ hknf
  · have hser : serialize recs
        = (magicOldBytes ++ ([0] ++ (u32Bytes 0 ++ (magicNewBytes
            ++ (u32Bytes recs.length
            ++ (u32Bytes ((strsBytes recs).length + 1)
            ++ (List.replicate 20 0
            ++ (entryArrayBytes (48 + 24 * recs.length) recs
            ++ (P ++ ((recs.get ⟨i, hi⟩).key ++ [0]))))))))))
          ++ ((recs.get ⟨i, hi⟩).value ++ 0 :: (C ++ [0])) := by
      rw [serialize, hPC]
      simp [strBlock, List.append_assoc]
    have hpre : (magicOldBytes ++ ([0] ++ (u32Bytes 0 ++ (magicNewBytes
        ++ (u32Bytes recs.length ++ (u32Bytes ((strsBytes recs).length + 1)
        ++ (List.replicate 20 0
        ++ (entryArrayBytes (48 + 24 * recs.length) recs
        ++ (P ++ ((recs.get ⟨i, hi⟩).key ++ [0])))))))))).length
        = 16 + serStrPos recs i + (recs.get ⟨i, hi⟩).key.length + 1 := by
      simp [magicOldBytes, magicNewBytes, u32Bytes, entryArrayBytes_length,
        hP, serStrPos]
      omega
    rw [hser, ← hpre]
    exact extractString_at _ _ _ hvnf

/-- Final cursor over a serialized buffer (no truncation occurs below
`2 ^ 32`). -/
theorem curEnd_serialize (recs : List LibEntryNew)
    (hsm : 65 + 24 * recs.length + (strsBytes recs).length < u32Mod) :
    curEnd (serialize recs)
      = 65 + 24 * recs.length + (strsBytes recs).length := by
  unfold curEnd curAfterEntries newEntriesBytes sizeofEntryNew
  rw [libsNewOff_serialize, nlibsNew_serialize, stringslen_serialize]
  have h1 : recs.length % u32Mod = recs.length := Nat.mod_eq_of_lt (by omega)
  rw [h1, Nat.mul_comm recs.length 24]
  have h3 : 24 * recs.length % u32Mod = 24 * recs.length :=
    Nat.mod_eq_of_lt (by omega)
  have h4 : ((strsBytes recs).length + 1) % u32Mod
      = (strsBytes recs).length + 1 := Nat.mod_eq_of_lt (by omega)
  rw [h3, h4]
  omega

/-- A serialized buffer passes the exact-length check. -/
theorem checkLen_serialize (recs : List LibEntryNew)
    (hsm : 65 + 24 * recs.length + (strsBytes recs).length < u32Mod) :
    checkLen (serialize recs) = true := by
  unfold checkLen
  rw [curEnd_serialize recs hsm, serialize_length]
  simp

/-- A serialized buffer passes the five pre-advance bounds checks. -/
theorem checks15_serialize (recs : List LibEntryNew)
    (hsm : 65 + 24 * recs.length + (strsBytes recs).length < u32Mod) :
    check1 (serialize recs) = true ∧ check2 (serialize recs) = true
      ∧ check3 (serialize recs) = true ∧ check4 (serialize recs) = true
      ∧ check5 (serialize recs) = true := by
  have hlen := serialize_length recs
  have hlim : limit32 (serialize recs)
      = 65 + 24 * recs.length + (strsBytes recs).length := by
    unfold limit32
    rw [hlen]
    exact Nat.mod_eq_of_lt hsm
  have hOEB : oldEntriesBytes (serialize recs) = 0 := by
    unfold oldEntriesBytes
    rw [nlibsOld_serialize]
    rfl
  have hNEB : newEntriesBytes (serialize recs) = 24 * recs.length := by
    unfold newEntriesBytes sizeofEntryNew
    rw [nlibsNew_serialize,
      Nat.mod_eq_of_lt (show recs.length < u32Mod by omega),
      Nat.mul_comm recs.length 24]
    exact Nat.mod_eq_of_lt (by omega)
  refine ⟨?_, ?_, ?_, ?_, ?_⟩
  · unfold check1 sizeofHeaderOld
    rw [validatePtr_iff, hlim]
    omega
  · unfold check2 sizeofHeaderOld
    rw [validatePtr_iff, hlim, hOEB]
    omega
  · unfold check3
    rw [oldEnd_serialize, alignTypeOffset_eq_zero, validatePtr_iff, hlim]
    omega
  · unfold check4 sizeofHeaderNew
    rw [validatePtr_iff, hlim, newHeaderOff_serialize]
    omega
  · unfold check5
    rw [validatePtr_iff, hlim, libsNewOff_serialize, hNEB]
    omega

/-- A serialized buffer passes the old-magic comparison. -/
theorem checkMagicOld_serialize (recs : List LibEntryNew) :
    checkMagicOld (serialize recs) = true := by
  unfold checkMagicOld slice
  rw [List.drop_zero]
  rw [show serialize recs
      = magicOldBytes ++ ([0] ++ (u32Bytes 0 ++ (magicNewBytes
          ++ (u32Bytes recs.length ++ (u32Bytes ((strsBytes recs).length + 1)
          ++ (List.replicate 20 0
          ++ (entryArrayBytes (48 + 24 * recs.length) recs
          ++ (strsBytes recs ++ [0]))))))))
      from by simp [serialize, List.append_assoc]]
  rw [show (11 : Nat) = magicOldBytes.length from rfl, List.take_left]
  rfl

/-- A serialized buffer passes the new-magic comparison. -/
theorem checkMagicNew_serialize (recs : List LibEntryNew) :
    checkMagicNew (serialize recs) = true := by
  unfold checkMagicNew slice
  rw [newHeaderOff_serialize]
  rw [show serialize recs
      = (magicOldBytes ++ ([0] ++ u32Bytes 0))
        ++ (magicNewBytes ++ (u32Bytes recs.length
          ++ (u32Bytes ((strsBytes recs).length + 1)
          ++ (List.replicate 20 0
          ++ (entryArrayBytes (48 + 24 * recs.length) recs
          ++ (strsBytes recs ++ [0]))))))
      from by simp [serialize, List.append_assoc]]
  rw [show (16 : Nat) = (magicOldBytes ++ ([0] ++ u32Bytes 0)
      : List Nat).length from rfl, List.drop_left]
  rw [show (20 : Nat) = magicNewBytes.length from rfl, List.take_left]
  rfl

/-- A serialized buffer ends in the extra terminating null byte. -/
theorem checkLastByte_serialize (recs : List LibEntryNew)
    (hsm : 65 + 24 * recs.length + (strsBytes recs).length < u32Mod) :
    checkLastByte (serialize recs) = true := by
  unfold checkLastByte
  rw [curEnd_serialize recs hsm]
  rw [show serialize recs
      = (magicOldBytes ++ ([0] ++ (u32Bytes 0 ++ (magicNewBytes
          ++ (u32Bytes recs.length ++ (u32Bytes ((strsBytes recs).length + 1)
          ++ (List.replicate 20 0
          ++ (entryArrayBytes (48 + 24 * recs.length) recs
          ++ strsBytes recs)))))))) ++ [0]
      from by simp [serialize, List.append_assoc]]
  have hidx : 65 + 24 * recs.length + (strsBytes recs).length - 1
      = (magicOldBytes ++ ([0] ++ (u32Bytes 0 ++ (magicNewBytes
          ++ (u32Bytes recs.length ++ (u32Bytes ((strsBytes recs).length + 1)
          ++ (List.replicate 20 0
          ++ (entryArrayBytes (48 + 24 * recs.length) recs
          ++ strsBytes recs)))))) : List Nat)).length := by
    simp [magicOldBytes, magicNewBytes, u32Bytes, entryArrayBytes_length]
    omega
  rw [hidx, readByte_at]
  rfl

/-- A serialized buffer passes the string-offset loop: all stored offsets
point inside the buffer. -/
theorem checkEntryOffsets_serialize (recs : List LibEntryNew)
    (hsm : 65 + 24 * recs.length + (strsBytes recs).length < u32Mod) :
    checkEntryOffsets (serialize recs) = true := by
  rw [checkEntryOffsets_iff]
  intro i hi
  rw [nlibsNew_serialize,
    Nat.mod_eq_of_lt (show recs.length < u32Mod by omega)] at hi
  obtain ⟨-, hk, hv, -, -⟩ := serialize_entry_fields recs i hi
  have hble := strsLenTo_block_le recs i hi
  have hblock := strBlock_length (recs.get ⟨i, hi⟩)
  have hkm : serStrPos recs i % u32Mod = serStrPos recs i := by
    apply Nat.mod_eq_of_lt
    unfold serStrPos
    omega
  have hvm : (serStrPos recs i + (recs.get ⟨i, hi⟩).key.length + 1) % u32Mod
      = serStrPos recs i + (recs.get ⟨i, hi⟩).key.length + 1 := by
    apply Nat.mod_eq_of_lt
    unfold serStrPos
    omega
  rw [strtabOff_serialize, hk, hkm, hv, hvm, curEnd_serialize recs hsm]
  unfold serStrPos
  constructor <;> omega

set_option maxHeartbeats 2000000 in
/-- Parsing a serialized buffer recovers exactly the input records. -/
theorem parsedRecords_serialize (recs : List LibEntryNew)
    (hwf : ∀ r ∈ recs, WfRecord r)
    (hsm : 65 + 24 * recs.length + (strsBytes recs).length < u32Mod) :
    parsedRecords (serialize recs) = recs := by
  have hm : nlibsNew (serialize recs) = recs.length := by
    rw [nlibsNew_serialize]
    exact Nat.mod_eq_of_lt (by omega)
  apply List.ext_get
  · simp [parsedRecords, hm]
  · intro n h1 h2
    have hn : n < recs.length := h2
    unfold parsedRecords
    rw [List.get_map, List.get_range]
    obtain ⟨hfl, hov, hhw, hknf, hvnf⟩ :=
      hwf (recs.get ⟨n, hn⟩) (List.get_mem recs n hn)
    obtain ⟨hf, hk, hv, ho, hh⟩ := serialize_entry_fields recs n hn
    obtain ⟨hks, hvs⟩ := serialize_strings recs n hn
      (fun b hb => Nat.pos_iff_ne_zero.mp (hknf b hb).1)
      (fun b hb => Nat.pos_iff_ne_zero.mp (hvnf b hb).1)
    have hble := strsLenTo_block_le recs n hn
    have hblock := strBlock_length (recs.get ⟨n, hn⟩)
    have hkm : serStrPos recs n % u32Mod = serStrPos recs n := by
      apply Nat.mod_eq_of_lt
      unfold serStrPos
      omega
    have hvm : (serStrPos recs n + (recs.get ⟨n, hn⟩).key.length + 1) % u32Mod
        = serStrPos recs n + (recs.get ⟨n, hn⟩).key.length + 1 := by
      apply Nat.mod_eq_of_lt
      unfold serStrPos
      omega
    have hidx : 16 + (serStrPos recs n + (recs.get ⟨n, hn⟩).key.length + 1)
        = 16 + serStrPos recs n + (recs.get ⟨n, hn⟩).key.length + 1 := by
      omega
    have hom : (recs.get ⟨n, hn⟩).osversion % u32Mod
        = (recs.get ⟨n, hn⟩).osversion := Nat.mod_eq_of_lt hov
    simp only [strtabOff_serialize, hf, Nat.mod_eq_of_lt hfl, hk, hkm, hks,
      hv, hvm, hidx, hvs, ho, hom, hh, Nat.mod_eq_of_lt hhw]

/-- C7: round trip.  The repository has no writer, so `serialize` is
modelled from the spec's test construction (old header, zero old entries,
no pad, new header, new entries, null-terminated strings with one extra
final null, offsets relative to the new-header start).  For every list of
well-formed records whose serialized form fits below `2 ^ 32` bytes,
parsing the serialized buffer succeeds and returns exactly the input
records in order, every field preserved. -/
theorem C7_roundtrip (recs : List LibEntryNew)
    (hwf : ∀ r ∈ recs, WfRecord r)
    (hlen : (serialize recs).length < u32Mod) :
    ldcacheParse (serialize recs) = some recs := by
  have hsm : 65 + 24 * recs.length + (strsBytes recs).length < u32Mod := by
    rw [← serialize_length recs]
    exact hlen
  obtain ⟨c1, c2, c3, c4, c5⟩ := checks15_serialize recs hsm
  rw [parse_of_checks (serialize recs) c1 c2 c3 c4 c5
      (checkLen_serialize recs hsm) (checkMagicOld_serialize recs)
      (checkMagicNew_serialize recs) (checkLastByte_serialize recs hsm)
      (checkEntryOffsets_serialize recs hsm),
    parsedRecords_serialize recs hwf hsm]

/-- C7 witness: one concrete record survives the round trip. -/
theorem C7_witness :
    ldcacheParse (serialize [⟨1, [97], [98], 2, 3⟩])
      = some [⟨1, [97], [98], 2, 3⟩] :=
  C7_roundtrip [⟨1, [97], [98], 2, 3⟩]
    (by
      intro r hr
      rw [List.mem_singleton] at hr
      subst hr
      exact ⟨by decide, by decide, by decide, by decide, by decide⟩)
    (by decide)

end Ldcache
